import Mathlib

/-!
Verification of the batch orchestration, progress tracking and archiving
pipeline of `manga-upscaler.py`.

The Python source is shallowly embedded below.  Effectful code is embedded as
pure functions returning explicit traces: the external upscaler process is an
oracle `exec : String → ExecBehavior` mapping the full input path of an image
to the observable behaviour of its invocation (exit code, timeout, or launch
exception); filesystem writes performed by `zipfile`/`shutil` are oracles
`Bool`-valued per directory; console output of the progress bar is a list of
`DisplayEvent`s.  File names are `String`s; a directory is its list of entry
names.  Python string comparison (used by `sorted`) is code-point
lexicographic order, embedded as `strLeB` on the character lists.
-/

namespace MangaUpscaler

/-- Code-point lexicographic comparison of character lists: the order Python's
`sorted` uses on file names (comparing strings by Unicode code points). -/
def strLeB : List Char → List Char → Bool
  | [], _ => true
  | _ :: _, [] => false
  | a :: as, b :: bs =>
    if a.toNat < b.toNat then true
    else if b.toNat < a.toNat then false
    else strLeB as bs

/-- Python's `s1 <= s2` on strings. -/
def strLe (a b : String) : Prop := strLeB a.data b.data = true

instance : DecidableRel strLe := fun a b => instDecidableEqBool (strLeB a.data b.data) true

theorem strLeB_total : ∀ a b, strLeB a b = true ∨ strLeB b a = true
  | [], _ => Or.inl rfl
  | _ :: _, [] => Or.inr rfl
  | a :: as, b :: bs => by
    simp only [strLeB]
    rcases Nat.lt_trichotomy a.toNat b.toNat with h | h | h
    · left
      simp [h]
    · have h1 : ¬ a.toNat < b.toNat := by omega
      have h2 : ¬ b.toNat < a.toNat := by omega
      simpa [h1, h2] using strLeB_total as bs
    · right
      simp [h]

theorem strLeB_trans : ∀ a b c, strLeB a b = true → strLeB b c = true → strLeB a c = true
  | [], _, _, _, _ => rfl
  | _ :: _, [], _, h, _ => by simp [strLeB] at h
  | _ :: _, _ :: _, [], _, h => by simp [strLeB] at h
  | a :: as, b :: bs, c :: cs, h1, h2 => by
    simp only [strLeB] at h1 h2 ⊢
    rcases Nat.lt_trichotomy a.toNat b.toNat with hab | hab | hab <;>
      rcases Nat.lt_trichotomy b.toNat c.toNat with hbc | hbc | hbc <;>
      simp [hab, hbc, Nat.lt_asymm, Nat.lt_irrefl] at h1 h2 ⊢ <;>
      first
        | omega
        | exact strLeB_trans as bs cs h1 h2

instance : IsTotal String strLe := ⟨fun a b => strLeB_total a.data b.data⟩
instance : IsTrans String strLe := ⟨fun a b c => strLeB_trans a.data b.data c.data⟩

/-- `sorted(...)` on file names. -/
def sortStrings (l : List String) : List String := List.insertionSort strLe l

/-- A directory entry: a subdirectory of the input root with its file names. -/
structure Dir where
  name : String
  files : List String
deriving DecidableEq

/-- Order used by `sorted(subdirs)`: chapter paths share a parent, so path
comparison is comparison of the directory names. -/
def dirLe (d₁ d₂ : Dir) : Prop := strLe d₁.name d₂.name

instance : DecidableRel dirLe := fun a b => (inferInstance : Decidable (strLe a.name b.name))
instance : IsTotal Dir dirLe := ⟨fun a b => strLeB_total a.name.data b.name.data⟩
instance : IsTrans Dir dirLe := ⟨fun a b c => strLeB_trans a.name.data b.name.data c.name.data⟩

/-- `sorted(subdirs)` (lines 535 and 558 of the source). -/
def sortDirs (l : List Dir) : List Dir := List.insertionSort dirLe l

/-- `input_path.glob(pat)` for a pattern `*<ext>`: pathlib translates the
pattern through fnmatch, so a name matches exactly when it ends with the
extension (`*` may match the empty string and pathlib does not exclude
dotfiles). -/
def matchesExt (ext name : String) : Bool := ext.data.isSuffixOf name.data

/-- Lines 429-430 / 517-518 / 528-529 / 570-571 of the source: the four glob
calls concatenated, in pattern order `png, jpg, jpeg, webp`. -/
def globImages (files : List String) : List String :=
  files.filter (matchesExt ".png") ++ files.filter (matchesExt ".jpg") ++
    files.filter (matchesExt ".jpeg") ++ files.filter (matchesExt ".webp")

/-- A name with one of the recognized image extensions. -/
def recognizedImage (name : String) : Bool :=
  matchesExt ".png" name || matchesExt ".jpg" name ||
    matchesExt ".jpeg" name || matchesExt ".webp" name

/-- The `quality_settings` dict: every key optional (lines 448-458 test key
presence individually). -/
structure QualitySettings where
  denoise_level : Option Int := none
  tile_size : Option Int := none
  gpu_id : Option Int := none
deriving DecidableEq

/-- Python truthiness of the dict: the empty dict is falsy. -/
def QualitySettings.isEmpty (q : QualitySettings) : Bool :=
  q.denoise_level.isNone && q.tile_size.isNone && q.gpu_id.isNone

/-- `BIN_DIR / exe_name` (line 421), as an opaque path string. -/
def binPath : String := "bin/waifu2x-ncnn-vulkan"

/-- `MODELS_DIR / "waifu2x" / "models-cunet"` (line 422). -/
def modelsPath : String := "models/waifu2x/models-cunet"

/-- Lines 440-460: the argument list built for one invocation of the external
tool.  `quality_settings` is truthy exactly when it is a non-empty dict. -/
def buildCmd (img out : String) (qs : Option QualitySettings) : List String :=
  let cmd := [binPath, "-i", img, "-o", out, "-s", "2", "-m", modelsPath]
  match qs with
  | some q =>
    if q.isEmpty then cmd ++ ["-n", "0"]
    else
      let cmd := cmd ++ (match q.denoise_level with
        | some n => ["-n", toString n]
        | none => ["-n", "0"])
      let cmd := cmd ++ (match q.tile_size with
        | some t => if 0 < t then ["-t", toString t] else []
        | none => [])
      cmd ++ (match q.gpu_id with
        | some g => ["-g", toString g]
        | none => [])
  | none => cmd ++ ["-n", "0"]

/-- Console events of the progress bar: a redraw of the bar line (with the
counter, the total and the optional truncated item label that were printed),
or a plain newline. -/
inductive DisplayEvent where
  | bar (current total : Nat) (label : Option String)
  | line
deriving DecidableEq

/-- Lines 115-117: labels longer than 40 characters are truncated. -/
def truncateLabel (s : String) : String :=
  if s.length > 40 then s.take 37 ++ "..." else s

/-- `ProgressTracker` state (lines 93-99): the item total and the current
counter. -/
structure ProgressTracker where
  total_items : Nat
  current_item : Nat
deriving DecidableEq

/-- `_display` (lines 105-122): no output when the total is zero; otherwise
one bar redraw, followed by a newline once the counter has reached the
total. -/
def ProgressTracker.render (t : ProgressTracker) (item_name : Option String) :
    List DisplayEvent :=
  if t.total_items = 0 then []
  else
    DisplayEvent.bar t.current_item t.total_items (item_name.map truncateLabel) ::
      (if t.total_items ≤ t.current_item then [DisplayEvent.line] else [])

/-- `update` (lines 101-103): increment the counter, then redraw. -/
def ProgressTracker.update (t : ProgressTracker) (item_name : Option String) :
    ProgressTracker × List DisplayEvent :=
  let t' : ProgressTracker := ⟨t.total_items, t.current_item + 1⟩
  (t', t'.render item_name)

/-- `finish` (lines 124-128): if the counter is below the total, force it to
the total and redraw once; in every case print a final newline. -/
def ProgressTracker.finish (t : ProgressTracker) : ProgressTracker × List DisplayEvent :=
  if t.current_item < t.total_items then
    let t' : ProgressTracker := ⟨t.total_items, t.total_items⟩
    (t', t'.render none ++ [DisplayEvent.line])
  else (t, [DisplayEvent.line])

/-- Observable behaviour of one `subprocess.run` of the external tool: it
exits with a code, exceeds the 300s timeout (`subprocess.TimeoutExpired`), or
raises before/while launching (the generic `except Exception` arm). -/
inductive ExecBehavior where
  | exits (code : Int)
  | timesOut
  | raises
deriving DecidableEq

/-- Per-image result, as classified by lines 465-477. -/
inductive ProcOutcome where
  | success
  | toolFailure (exit_code : Int)
  | timeout
  | launchError
deriving DecidableEq

/-- Lines 465-477: exit code 0 is a success, any other exit code a tool
failure, `TimeoutExpired` a timeout, any other exception a launch error. -/
def classify : ExecBehavior → ProcOutcome
  | .exits c => if c = 0 then .success else .toolFailure c
  | .timesOut => .timeout
  | .raises => .launchError

/-- Label passed to `progress_tracker.update` in each of the four branches of
lines 465-477. -/
def outcomeLabel (name : String) : ProcOutcome → String
  | .success => name
  | .toolFailure _ => name ++ " (failed)"
  | .timeout => name ++ " (timeout)"
  | .launchError => name ++ " (error)"

/-- Trace of one iteration of the dispatch loop (lines 437-477): the image
name, the command built for it, the classified outcome, the label passed to
the progress update, and the tracker state (counter, total) right after the
update. -/
structure ImageStep where
  image : String
  cmd : List String
  outcome : ProcOutcome
  label : String
  counter : Nat
  total : Nat
deriving DecidableEq

/-- The `for idx, img_path in enumerate(images, 1)` loop of lines 437-477:
each image is dispatched, its result classified, and the progress counter
advanced by exactly one, whatever the outcome; no outcome stops the loop. -/
def runLoop (inputPath outputPath : String) (qs : Option QualitySettings)
    (exec : String → ExecBehavior) :
    List String → ProgressTracker → ProgressTracker × List ImageStep
  | [], t => (t, [])
  | img :: rest, t =>
    let o := classify (exec (inputPath ++ "/" ++ img))
    let lbl := outcomeLabel img o
    let t' := (t.update (some lbl)).1
    let step : ImageStep :=
      ⟨img, buildCmd (inputPath ++ "/" ++ img) (outputPath ++ "/" ++ img) qs, o, lbl,
        t'.current_item, t'.total_items⟩
    let res := runLoop inputPath outputPath qs exec rest t'
    (res.1, step :: res.2)

/-- Result of `run_waifu2x` on a directory: final tracker, per-image trace,
and whether the output directory was created.  `output_path.mkdir(parents=True,
exist_ok=True)` at line 424 runs before image discovery, so the output
directory is created unconditionally. -/
structure W2xResult where
  tracker : ProgressTracker
  steps : List ImageStep
  createdOutputDir : Bool
deriving DecidableEq

/-- `run_waifu2x` (lines 418-477) on a directory input: create the output
directory, glob the four extensions, sort, then dispatch each image.  An
empty image list performs no updates. -/
def run_waifu2x (files : List String) (inputPath outputPath : String)
    (qs : Option QualitySettings) (exec : String → ExecBehavior)
    (t : ProgressTracker) : W2xResult :=
  let images := sortStrings (globImages files)
  let res := runLoop inputPath outputPath qs exec images t
  ⟨res.1, res.2, true⟩

/-- Observable result of `zip_directory` (lines 378-416): the returned bool,
whether the archive was fully written, and the fate of the source
directory. -/
structure ZipOutcome where
  returned : Bool
  archiveFullyWritten : Bool
  removalAttempted : Bool
  sourceRemoved : Bool
  warned : Bool
deriving DecidableEq

/-- `zip_directory` (lines 378-416).  `files` is the recursive file listing
of `dir_path`; `writeOk` is false when an exception interrupts the archive
write (the `except` arm at line 414 then returns `False` before any removal);
`rmOk` is false when `shutil.rmtree` at line 406 raises (caught at line 408:
a warning is printed and the function still returns `True`). -/
def zip_directory (files : List String) (cleanup : Bool) (writeOk rmOk : Bool) :
    ZipOutcome :=
  if files.isEmpty then ⟨false, false, false, false, false⟩
  else if writeOk then
    if cleanup then
      if rmOk then ⟨true, true, true, true, false⟩
      else ⟨true, true, true, false, true⟩
    else ⟨true, true, false, false, false⟩
  else ⟨false, false, false, false, false⟩

/-- The chapter loop of lines 535-546: chapters are visited in the given
order (the caller passes `sorted(subdirs)`), each through `run_waifu2x` with
output directory `output_root/chapter_name`, sharing one tracker.  Returns
the final tracker, the chapter-tagged steps, and the names of the output
directories created. -/
def processChapters (inputRoot outputRoot : String) (qs : Option QualitySettings)
    (exec : String → ExecBehavior) :
    List Dir → ProgressTracker →
      ProgressTracker × List (Option String × ImageStep) × List String
  | [], t => (t, [], [])
  | ch :: rest, t =>
    let r := run_waifu2x ch.files (inputRoot ++ "/" ++ ch.name)
      (outputRoot ++ "/" ++ ch.name) qs exec t
    let res := processChapters inputRoot outputRoot qs exec rest r.tracker
    (res.1, r.steps.map (fun s => (some ch.name, s)) ++ res.2.1, ch.name :: res.2.2)

/-- Files present in a chapter's output directory when zipping starts: by the
external binary's interface contract (spec §2, "exits 0 on success"), the
upscaled file for an image exists exactly when its invocation exited 0. -/
def chapterOutputFiles (inputPath : String) (files : List String)
    (exec : String → ExecBehavior) : List String :=
  (sortStrings (globImages files)).filter
    (fun img => exec (inputPath ++ "/" ++ img) == ExecBehavior.exits 0)

/-- The zipping loop of lines 552-562: iterate the output directories in
sorted order (the caller passes `sorted(subdirs)`, which lists exactly the
created chapter directories), zip each with `cleanup=True`, and count the
chapters whose `zip_directory` call returned `True`.  Returns the names of
the archives created. -/
def zipChapters (inputRoot : String) (exec : String → ExecBehavior)
    (zipOk rmOk : String → Bool) : List Dir → List String
  | [] => []
  | ch :: rest =>
    let outFiles := chapterOutputFiles (inputRoot ++ "/" ++ ch.name) ch.files exec
    let z := zip_directory outFiles true (zipOk ch.name) (rmOk ch.name)
    let restZips := zipChapters inputRoot exec zipOk rmOk rest
    if z.returned then (ch.name ++ ".zip") :: restZips else restZips

/-- Observable result of `process_images`: the progress total computed before
processing, the dispatch trace tagged with chapter names, the chapter output
directories created under the output root, the per-chapter archives created,
whether a whole-output archive was created, and the final tracker. -/
structure PIResult where
  totalPrecomputed : Nat
  steps : List (Option String × ImageStep)
  createdDirs : List String
  chapterZips : List String
  wholeZip : Bool
  tracker : ProgressTracker
deriving DecidableEq

/-- `process_images` (lines 479-588) for the `waifu2x` model.  `rootFiles`
and `subdirs` are the files and immediate subdirectories of `input_dir` (in
`iterdir` order); `exec` is the external-process oracle keyed by full input
path; `zipOk`/`rmOk` are the archive-write and source-removal oracles keyed
by directory name.  In the nested branch the count pass (lines 526-531) runs
over the subdirectories before the tracker is built; the whole-output zip of
lines 577-587 exists only in the non-nested branch. -/
def process_images (inputRoot outputRoot : String) (rootFiles : List String)
    (subdirs : List Dir) (nested : Bool) (qs : Option QualitySettings)
    (zip_output zip_nested : Bool) (exec : String → ExecBehavior)
    (zipOk rmOk : String → Bool) : PIResult :=
  if nested then
    if subdirs.isEmpty then
      let images := globImages rootFiles
      let t0 : ProgressTracker := ⟨images.length, 0⟩
      let r := run_waifu2x rootFiles inputRoot outputRoot qs exec t0
      ⟨images.length, r.steps.map (fun s => (none, s)), [], [], false, (r.tracker.finish).1⟩
    else
      let total := (subdirs.map (fun d => (globImages d.files).length)).sum
      let t0 : ProgressTracker := ⟨total, 0⟩
      let res := processChapters inputRoot outputRoot qs exec (sortDirs subdirs) t0
      let zips := if zip_nested then zipChapters inputRoot exec zipOk rmOk (sortDirs subdirs)
        else []
      ⟨total, res.2.1, res.2.2, zips, false, (res.1.finish).1⟩
  else
    let images := globImages rootFiles
    let t0 : ProgressTracker := ⟨images.length, 0⟩
    let r := run_waifu2x rootFiles inputRoot outputRoot qs exec t0
    let outFiles := chapterOutputFiles inputRoot rootFiles exec
    let wz := zip_output && (zip_directory outFiles true (zipOk outputRoot) (rmOk outputRoot)).returned
    ⟨images.length, r.steps.map (fun s => (none, s)), [], [], wz, (r.tracker.finish).1⟩

/-- The `RunReport` of spec §4.1, written from the spec's words: total image
count, succeeded count, and the per-image failures with their reason tags,
obtained by folding the recorded per-image outcomes. -/
structure RunReport where
  total_images : Nat
  succeeded : Nat
  failed : List (String × ProcOutcome)
deriving DecidableEq

/-- Written from the spec's words (§4.1 Result): fold a list of recorded
per-image outcomes into the aggregate report. -/
def specRunReport (outcomes : List (String × ProcOutcome)) : RunReport :=
  ⟨outcomes.length,
    (outcomes.filter (fun p => p.2 == ProcOutcome.success)).length,
    outcomes.filter (fun p => !(p.2 == ProcOutcome.success))⟩

/-- Written from the spec's words (§4.1 invocation parameters): scale is
fixed at 2 and the model-weights directory is always passed; the denoise
level defaults to 0 when absent; the tile-size flag appears exactly when the
setting is present and strictly positive; the GPU flag exactly when a GPU id
is present. -/
def specCmd (img out : String) (qs : Option QualitySettings) : List String :=
  let d := (qs.bind QualitySettings.denoise_level).getD 0
  let tile := (qs.bind QualitySettings.tile_size).getD 0
  [binPath, "-i", img, "-o", out, "-s", "2", "-m", modelsPath] ++
    ["-n", toString d] ++
    (if 0 < tile then ["-t", toString tile] else []) ++
    (match qs.bind QualitySettings.gpu_id with
      | some g => ["-g", toString g]
      | none => [])

/-- The three `-q` presets for waifu2x (lines 59-65). -/
inductive Preset where
  | fast
  | balanced
  | quality
deriving DecidableEq

/-- `QUALITY_PRESETS["waifu2x"]` (lines 59-65). -/
def presetSettings : Preset → QualitySettings
  | .fast => ⟨some (-1), some 400, none⟩
  | .balanced => ⟨some 0, some 0, none⟩
  | .quality => ⟨some 2, some 200, none⟩

/-- Parsed CLI arguments relevant to quality settings.  `--quality` is
constrained by argparse `choices` to the three presets; `--gpu` defaults to
0 and is never `None` (line 714). -/
structure Args where
  quality : Option Preset := none
  denoise : Option Int := none
  tile_size : Option Int := none
  gpu : Int := 0
deriving DecidableEq

/-- What argparse itself guarantees about a parse that succeeded: `--denoise`
has `choices=[-1, 0, 1, 2, 3]` (line 710); `--tile-size` and `--gpu` are bare
`type=int` with no choices and no bounds. -/
def argsValid (a : Args) : Bool :=
  a.denoise.all (fun d => d == -1 || d == 0 || d == 1 || d == 2 || d == 3)

/-- Lines 779-793 of `main`: start from the chosen preset (or `balanced`
when `-q` is absent -- the model is always `waifu2x`, which is in
`QUALITY_PRESETS`), then apply the explicit `--denoise`, `--tile-size` and
`--gpu` overrides.  `args.gpu` is never `None`, so `gpu_id` is always set.
No range validation is applied anywhere on this path. -/
def buildQualitySettings (a : Args) : QualitySettings :=
  let base := presetSettings (a.quality.getD Preset.balanced)
  let q1 := match a.denoise with
    | some d => { base with denoise_level := some d }
    | none => base
  let q2 := match a.tile_size with
    | some t => { q1 with tile_size := some t }
    | none => q1
  { q2 with gpu_id := some a.gpu }

/-- The ranges the spec's data model (§3) declares for the quality settings,
which are also the `min`/`max` fields of `AVAILABLE_MODELS["waifu2x"]
["quality_settings"]` (lines 33-55 of the source). -/
def qualityInRange (q : QualitySettings) : Prop :=
  (∀ d, q.denoise_level = some d → -1 ≤ d ∧ d ≤ 3) ∧
    (∀ t, q.tile_size = some t → 0 ≤ t ∧ t ≤ 2048) ∧
    (∀ g, q.gpu_id = some g → 0 ≤ g ∧ g ≤ 16)

end MangaUpscaler

namespace MangaUpscaler

/-- C7: for every ImageUnit, the command built for the external tool always
passes scale factor 2 and the model-weights directory; the tile-size flag is
included exactly when a tile_size setting is present and strictly greater
than 0 (omitted when ≤ 0, meaning auto); and when no quality settings are
given, denoise level 0 is passed.  Stated as: the command of lines 440-460
coincides with the command the spec describes. -/
theorem C7_invocation_parameters (img out : String) (qs : Option QualitySettings) :
    buildCmd img out qs = specCmd img out qs := by
  rcases qs with _ | ⟨d, t, g⟩
  · simp [buildCmd, specCmd]
    rfl
  · rcases d with _ | d <;> rcases t with _ | t <;> rcases g with _ | g <;>
      simp [buildCmd, specCmd, QualitySettings.isEmpty] <;> rfl

/-- C8: on a tracker with total N > 0 and counter k < N, `finish` forces the
counter to exactly N and redraws the bar exactly once (ending in the
completed state); a second `finish` leaves the tracker unchanged and redraws
no bar. -/
theorem C8_finish_forces_total_and_is_idempotent (N k : Nat) (h1 : 0 < N) (h2 : k < N) :
    ((ProgressTracker.finish ⟨N, k⟩).1.current_item = N ∧
      (ProgressTracker.finish ⟨N, k⟩).2 =
        [DisplayEvent.bar N N none, DisplayEvent.line, DisplayEvent.line]) ∧
    (((ProgressTracker.finish ⟨N, k⟩).1.finish).1 = (ProgressTracker.finish ⟨N, k⟩).1 ∧
      ((ProgressTracker.finish ⟨N, k⟩).1.finish).2 = [DisplayEvent.line]) := by
  simp [ProgressTracker.finish, ProgressTracker.render, h2, h1.ne', Nat.lt_irrefl]

/-- Witness for C8 at the spec's own example, a tracker at 40 of 100. -/
theorem C8_witness :
    ((ProgressTracker.finish ⟨100, 40⟩).1.current_item = 100 ∧
      (ProgressTracker.finish ⟨100, 40⟩).2 =
        [DisplayEvent.bar 100 100 none, DisplayEvent.line, DisplayEvent.line]) ∧
    (((ProgressTracker.finish ⟨100, 40⟩).1.finish).1 = (ProgressTracker.finish ⟨100, 40⟩).1 ∧
      ((ProgressTracker.finish ⟨100, 40⟩).1.finish).2 = [DisplayEvent.line]) :=
  C8_finish_forces_total_and_is_idempotent 100 40 (by decide) (by decide)

/-- C5: with `delete_source_on_success`, removal of the source directory is
attempted only after the archive write fully succeeds; when removal itself
succeeds, the source is removed iff the archive was fully written; on any
write failure the call returns false and the source is kept; a removal
failure is only a warning and the call still returns true. -/
theorem C5_delete_source_only_after_full_write (files : List String) (writeOk rmOk : Bool) :
    ((zip_directory files true writeOk rmOk).removalAttempted = true →
      (zip_directory files true writeOk rmOk).archiveFullyWritten = true) ∧
    (rmOk = true →
      ((zip_directory files true writeOk rmOk).sourceRemoved = true ↔
        (zip_directory files true writeOk rmOk).archiveFullyWritten = true)) ∧
    (writeOk = false →
      (zip_directory files true writeOk rmOk).returned = false ∧
        (zip_directory files true writeOk rmOk).sourceRemoved = false) ∧
    ((zip_directory files true writeOk rmOk).archiveFullyWritten = true → rmOk = false →
      (zip_directory files true writeOk rmOk).warned = true ∧
        (zip_directory files true writeOk rmOk).returned = true) := by
  cases h : files.isEmpty <;> cases writeOk <;> cases rmOk <;> simp [zip_directory, h]

/-- Witness for C5: a failed archive write on a non-empty directory returns
false and does not remove the source. -/
theorem C5_witness :
    (zip_directory ["a.png"] true false true).returned = false ∧
    (zip_directory ["a.png"] true false true).sourceRemoved = false :=
  (C5_delete_source_only_after_full_write ["a.png"] false true).2.2.1 rfl

/-- C10: in a nested run no archive of the whole output tree is ever created,
whether subdirectories exist or the flat fallback runs; the whole-output zip
of lines 577-587 is reachable only with nested=false. -/
theorem C10_no_whole_output_zip_in_nested_runs (inputRoot outputRoot : String)
    (rootFiles : List String) (subdirs : List Dir) (qs : Option QualitySettings)
    (zip_output zip_nested : Bool) (exec : String → ExecBehavior)
    (zipOk rmOk : String → Bool) :
    (process_images inputRoot outputRoot rootFiles subdirs true qs zip_output zip_nested
      exec zipOk rmOk).wholeZip = false := by
  by_cases h : subdirs.isEmpty <;> simp [process_images, h]

/-- C9 counterexample: argparse accepts `--tile-size 4096` (no choices, no
bound check), and the resulting effective quality settings violate the
declared range tile_size ∈ [0, 2048], so a run can proceed with out-of-range
settings. -/
theorem C9_counterexample :
    argsValid ⟨none, none, some 4096, 0⟩ = true ∧
    ¬ qualityInRange (buildQualitySettings ⟨none, none, some 4096, 0⟩) := by
  refine ⟨rfl, fun h => ?_⟩
  have := h.2.1 4096 rfl
  omega

/-- C9 amended: only the denoise level is range-constrained (argparse
`choices` plus the preset values keep it in [-1, 3]); the tile-size and GPU
id supplied on the command line reach the effective settings unvalidated. -/
theorem C9_amended_denoise_bounded_tile_gpu_unchecked (a : Args) (h : argsValid a = true) :
    (∀ d, (buildQualitySettings a).denoise_level = some d → -1 ≤ d ∧ d ≤ 3) ∧
    (∀ t, a.tile_size = some t → (buildQualitySettings a).tile_size = some t) ∧
    (buildQualitySettings a).gpu_id = some a.gpu := by
  obtain ⟨q, den, ts, g⟩ := a
  refine ⟨?_, ?_, ?_⟩
  · intro d hd
    rcases den with _ | d'
    · rcases q with _ | p
      · rcases ts with _ | t <;> simp [buildQualitySettings, presetSettings] at hd <;> omega
      · cases p <;> rcases ts with _ | t <;>
          simp [buildQualitySettings, presetSettings] at hd <;> omega
    · simp only [argsValid, Option.all_some, Bool.or_eq_true, beq_iff_eq] at h
      rcases ts with _ | t <;> simp [buildQualitySettings] at hd <;>
        rcases h with h | h | h | h | h <;> omega
  · intro t ht
    subst ht
    rcases den with _ | d' <;> simp [buildQualitySettings]
  · rcases den with _ | d' <;> rcases ts with _ | t <;> simp [buildQualitySettings]

/-- Witness for C9's amended claim at a concrete argparse-valid argument
vector using `--denoise 3`. -/
theorem C9_witness :
    (∀ d, (buildQualitySettings ⟨none, some 3, none, 0⟩).denoise_level = some d →
      -1 ≤ d ∧ d ≤ 3) ∧
    (∀ t, (⟨none, some 3, none, 0⟩ : Args).tile_size = some t →
      (buildQualitySettings ⟨none, some 3, none, 0⟩).tile_size = some t) ∧
    (buildQualitySettings ⟨none, some 3, none, 0⟩).gpu_id = some 0 :=
  C9_amended_denoise_bounded_tile_gpu_unchecked ⟨none, some 3, none, 0⟩ (by decide)

end MangaUpscaler

namespace MangaUpscaler

theorem sortStrings_perm (l : List String) : (sortStrings l).Perm l :=
  List.perm_insertionSort strLe l

theorem sortStrings_length (l : List String) : (sortStrings l).length = l.length :=
  (sortStrings_perm l).length_eq

theorem sortStrings_sorted (l : List String) : List.Pairwise strLe (sortStrings l) :=
  List.sorted_insertionSort strLe l

theorem sortDirs_perm (l : List Dir) : (sortDirs l).Perm l :=
  List.perm_insertionSort dirLe l

theorem sortDirs_sorted (l : List Dir) : List.Pairwise dirLe (sortDirs l) :=
  List.sorted_insertionSort dirLe l

theorem append_ne_self {a b : String} (hb : b.length ≠ 0) : a ++ b ≠ a := by
  intro h
  have h' := congrArg String.length h
  rw [String.length_append] at h'
  omega

theorem outcomeLabel_ne {name : String} {o : ProcOutcome} (h : o ≠ ProcOutcome.success) :
    outcomeLabel name o ≠ name := by
  cases o with
  | success => exact absurd rfl h
  | toolFailure c => exact append_ne_self (by decide)
  | timeout => exact append_ne_self (by decide)
  | launchError => exact append_ne_self (by decide)

theorem runLoop_map_image (ip op : String) (qs : Option QualitySettings)
    (exec : String → ExecBehavior) :
    ∀ (imgs : List String) (t : ProgressTracker),
      ((runLoop ip op qs exec imgs t).2).map ImageStep.image = imgs
  | [], _ => rfl
  | img :: rest, t => by
    simp only [runLoop, List.map_cons]
    rw [runLoop_map_image ip op qs exec rest]

theorem runLoop_fst (ip op : String) (qs : Option QualitySettings)
    (exec : String → ExecBehavior) :
    ∀ (imgs : List String) (t : ProgressTracker),
      (runLoop ip op qs exec imgs t).1 = ⟨t.total_items, t.current_item + imgs.length⟩
  | [], t => rfl
  | img :: rest, t => by
    simp only [runLoop]
    rw [runLoop_fst ip op qs exec rest]
    simp only [ProgressTracker.update, List.length_cons, ProgressTracker.mk.injEq, true_and]
    omega

theorem runLoop_map_counter (ip op : String) (qs : Option QualitySettings)
    (exec : String → ExecBehavior) :
    ∀ (imgs : List String) (t : ProgressTracker),
      ((runLoop ip op qs exec imgs t).2).map ImageStep.counter =
        List.range' (t.current_item + 1) imgs.length
  | [], t => rfl
  | img :: rest, t => by
    simp only [runLoop, List.map_cons, List.length_cons, List.range']
    rw [runLoop_map_counter ip op qs exec rest]
    simp [ProgressTracker.update]

theorem runLoop_total_eq (ip op : String) (qs : Option QualitySettings)
    (exec : String → ExecBehavior) :
    ∀ (imgs : List String) (t : ProgressTracker) (s : ImageStep),
      s ∈ (runLoop ip op qs exec imgs t).2 → s.total = t.total_items
  | [], _, s, hs => by simp [runLoop] at hs
  | img :: rest, t, s, hs => by
    simp only [runLoop, List.mem_cons] at hs
    rcases hs with hs | hs
    · subst hs
      rfl
    · exact (runLoop_total_eq ip op qs exec rest _ s hs).trans rfl

theorem runLoop_label_eq (ip op : String) (qs : Option QualitySettings)
    (exec : String → ExecBehavior) :
    ∀ (imgs : List String) (t : ProgressTracker) (s : ImageStep),
      s ∈ (runLoop ip op qs exec imgs t).2 → s.label = outcomeLabel s.image s.outcome
  | [], _, s, hs => by simp [runLoop] at hs
  | img :: rest, t, s, hs => by
    simp only [runLoop, List.mem_cons] at hs
    rcases hs with hs | hs
    · subst hs
      rfl
    · exact runLoop_label_eq ip op qs exec rest _ s hs

theorem runLoop_map_pair (ip op : String) (qs : Option QualitySettings)
    (exec : String → ExecBehavior) :
    ∀ (imgs : List String) (t : ProgressTracker),
      ((runLoop ip op qs exec imgs t).2).map (fun s => (s.image, s.outcome)) =
        imgs.map (fun i => (i, classify (exec (ip ++ "/" ++ i))))
  | [], _ => rfl
  | img :: rest, t => by
    simp only [runLoop, List.map_cons]
    rw [runLoop_map_pair ip op qs exec rest]

theorem finish_fst_total (t : ProgressTracker) : (t.finish).1.total_items = t.total_items := by
  unfold ProgressTracker.finish
  split <;> rfl

end MangaUpscaler

namespace MangaUpscaler

theorem processChapters_created (ir outr : String) (qs : Option QualitySettings)
    (exec : String → ExecBehavior) :
    ∀ (l : List Dir) (t : ProgressTracker),
      (processChapters ir outr qs exec l t).2.2 = l.map Dir.name
  | [], _ => rfl
  | ch :: rest, t => by
    simp only [processChapters, List.map_cons]
    rw [processChapters_created ir outr qs exec rest]

theorem processChapters_fst (ir outr : String) (qs : Option QualitySettings)
    (exec : String → ExecBehavior) :
    ∀ (l : List Dir) (t : ProgressTracker),
      (processChapters ir outr qs exec l t).1 =
        ⟨t.total_items, t.current_item + (l.map (fun d => (globImages d.files).length)).sum⟩
  | [], t => by simp [processChapters]
  | ch :: rest, t => by
    simp only [processChapters, run_waifu2x, List.map_cons, List.sum_cons]
    rw [processChapters_fst ir outr qs exec rest, runLoop_fst]
    simp only [sortStrings_length, ProgressTracker.mk.injEq, true_and]
    omega

theorem processChapters_proj (ir outr : String) (qs : Option QualitySettings)
    (exec : String → ExecBehavior) :
    ∀ (l : List Dir) (t : ProgressTracker),
      ((processChapters ir outr qs exec l t).2.1).map (fun p => (p.1, p.2.image)) =
        l.flatMap (fun ch =>
          (sortStrings (globImages ch.files)).map (fun i => (some ch.name, i)))
  | [], _ => rfl
  | ch :: rest, t => by
    simp only [processChapters, run_waifu2x, List.flatMap_cons, List.map_append, List.map_map]
    rw [processChapters_proj ir outr qs exec rest]
    congr 1
    conv_rhs => rw [← runLoop_map_image (ir ++ "/" ++ ch.name) (outr ++ "/" ++ ch.name) qs exec
      (sortStrings (globImages ch.files)) t]
    rw [List.map_map]
    rfl

theorem processChapters_counter (ir outr : String) (qs : Option QualitySettings)
    (exec : String → ExecBehavior) :
    ∀ (l : List Dir) (t : ProgressTracker),
      ((processChapters ir outr qs exec l t).2.1).map (fun p => p.2.counter) =
        List.range' (t.current_item + 1)
          ((l.map (fun d => (globImages d.files).length)).sum)
  | [], t => by simp [processChapters]
  | ch :: rest, t => by
    simp only [processChapters, run_waifu2x, List.map_cons, List.sum_cons, List.map_append,
      List.map_map]
    rw [processChapters_counter ir outr qs exec rest, runLoop_fst]
    rw [show ((fun p : Option String × ImageStep => p.2.counter) ∘ fun s => (some ch.name, s)) =
      ImageStep.counter from rfl]
    rw [runLoop_map_counter]
    simp only [sortStrings_length]
    have h := List.range'_append (t.current_item + 1) ((globImages ch.files).length)
      ((rest.map (fun d => (globImages d.files).length)).sum) 1
    simp only [one_mul] at h
    rw [Nat.add_right_comm t.current_item 1 ((globImages ch.files).length)] at h
    rw [h]
    congr 1
    omega

theorem processChapters_total (ir outr : String) (qs : Option QualitySettings)
    (exec : String → ExecBehavior) :
    ∀ (l : List Dir) (t : ProgressTracker) (p : Option String × ImageStep),
      p ∈ (processChapters ir outr qs exec l t).2.1 → p.2.total = t.total_items
  | [], _, p, hp => by simp [processChapters] at hp
  | ch :: rest, t, p, hp => by
    simp only [processChapters, run_waifu2x, List.mem_append, List.mem_map] at hp
    rcases hp with ⟨s, hs, rfl⟩ | hp
    · exact runLoop_total_eq _ _ qs exec _ t s hs
    · have h := processChapters_total ir outr qs exec rest _ p hp
      simpa [run_waifu2x, runLoop_fst] using h

theorem processChapters_label (ir outr : String) (qs : Option QualitySettings)
    (exec : String → ExecBehavior) :
    ∀ (l : List Dir) (t : ProgressTracker) (p : Option String × ImageStep),
      p ∈ (processChapters ir outr qs exec l t).2.1 →
        p.2.label = outcomeLabel p.2.image p.2.outcome
  | [], _, p, hp => by simp [processChapters] at hp
  | ch :: rest, t, p, hp => by
    simp only [processChapters, run_waifu2x, List.mem_append, List.mem_map] at hp
    rcases hp with ⟨s, hs, rfl⟩ | hp
    · exact runLoop_label_eq _ _ qs exec _ t s hs
    · exact processChapters_label ir outr qs exec rest _ p hp

/-- The dispatch order of a run, read off the discovery policy of the source:
flat (or fallback) runs dispatch the sorted recognized images of the root;
nested runs with subdirectories dispatch the sorted images of each chapter,
chapters in sorted order.  Used to state that the dispatch order depends only
on the filesystem, never on invocation outcomes. -/
def dispatchPlan (rootFiles : List String) (subdirs : List Dir) (nested : Bool) :
    List (Option String × String) :=
  if nested then
    if subdirs.isEmpty then
      (sortStrings (globImages rootFiles)).map (fun i => (none, i))
    else
      (sortDirs subdirs).flatMap (fun ch =>
        (sortStrings (globImages ch.files)).map (fun i => (some ch.name, i)))
  else (sortStrings (globImages rootFiles)).map (fun i => (none, i))

theorem flat_steps_proj (ir outr : String) (qs : Option QualitySettings)
    (exec : String → ExecBehavior) (fs : List String) (t : ProgressTracker) :
    (((run_waifu2x fs ir outr qs exec t).steps).map
        (fun s => ((none : Option String), s))).map (fun p => (p.1, p.2.image)) =
      (sortStrings (globImages fs)).map (fun i => (none, i)) := by
  simp only [run_waifu2x, List.map_map]
  conv_rhs => rw [← runLoop_map_image ir outr qs exec (sortStrings (globImages fs)) t]
  rw [List.map_map]
  rfl

theorem flat_steps_counter (ir outr : String) (qs : Option QualitySettings)
    (exec : String → ExecBehavior) (fs : List String) (t : ProgressTracker) :
    (((run_waifu2x fs ir outr qs exec t).steps).map
        (fun s => ((none : Option String), s))).map (fun p => p.2.counter) =
      List.range' (t.current_item + 1) (globImages fs).length := by
  simp only [run_waifu2x, List.map_map]
  rw [show ((fun p : Option String × ImageStep => p.2.counter) ∘
    fun s => ((none : Option String), s)) = ImageStep.counter from rfl]
  rw [runLoop_map_counter, sortStrings_length]

theorem process_images_steps_proj (inputRoot outputRoot : String) (rootFiles : List String)
    (subdirs : List Dir) (nested : Bool) (qs : Option QualitySettings)
    (zip_output zip_nested : Bool) (exec : String → ExecBehavior)
    (zipOk rmOk : String → Bool) :
    ((process_images inputRoot outputRoot rootFiles subdirs nested qs zip_output zip_nested
        exec zipOk rmOk).steps).map (fun p => (p.1, p.2.image)) =
      dispatchPlan rootFiles subdirs nested := by
  cases nested with
  | false =>
    simp only [process_images, dispatchPlan, Bool.false_eq_true, if_false]
    exact flat_steps_proj inputRoot outputRoot qs exec rootFiles _
  | true =>
    cases hs : subdirs.isEmpty with
    | true =>
      simp only [process_images, dispatchPlan, hs, if_true]
      exact flat_steps_proj inputRoot outputRoot qs exec rootFiles _
    | false =>
      simp only [process_images, dispatchPlan, hs, Bool.false_eq_true, if_false, if_true]
      exact processChapters_proj inputRoot outputRoot qs exec (sortDirs subdirs) _

theorem process_images_counter (inputRoot outputRoot : String) (rootFiles : List String)
    (subdirs : List Dir) (nested : Bool) (qs : Option QualitySettings)
    (zip_output zip_nested : Bool) (exec : String → ExecBehavior)
    (zipOk rmOk : String → Bool) :
    ((process_images inputRoot outputRoot rootFiles subdirs nested qs zip_output zip_nested
        exec zipOk rmOk).steps).map (fun p => p.2.counter) =
      List.range' 1
        ((process_images inputRoot outputRoot rootFiles subdirs nested qs zip_output zip_nested
          exec zipOk rmOk).steps).length := by
  have hlen : ∀ (l : List (Option String × ImageStep)) (n : Nat),
      l.map (fun p => p.2.counter) = List.range' 1 n →
        l.map (fun p => p.2.counter) = List.range' 1 l.length := by
    intro l n h
    have : l.length = n := by
      have := congrArg List.length h
      simpa [List.length_range'] using this
    rw [this]
    exact h
  cases nested with
  | false =>
    simp only [process_images, Bool.false_eq_true, if_false]
    exact hlen _ _ (flat_steps_counter inputRoot outputRoot qs exec rootFiles _)
  | true =>
    cases hs : subdirs.isEmpty with
    | true =>
      simp only [process_images, hs, if_true]
      exact hlen _ _ (flat_steps_counter inputRoot outputRoot qs exec rootFiles _)
    | false =>
      simp only [process_images, hs, Bool.false_eq_true, if_false, if_true]
      exact hlen _ _ (processChapters_counter inputRoot outputRoot qs exec (sortDirs subdirs) _)

theorem process_images_label (inputRoot outputRoot : String) (rootFiles : List String)
    (subdirs : List Dir) (nested : Bool) (qs : Option QualitySettings)
    (zip_output zip_nested : Bool) (exec : String → ExecBehavior)
    (zipOk rmOk : String → Bool) (p : Option String × ImageStep)
    (hp : p ∈ (process_images inputRoot outputRoot rootFiles subdirs nested qs zip_output
      zip_nested exec zipOk rmOk).steps) :
    p.2.label = outcomeLabel p.2.image p.2.outcome := by
  revert hp
  cases nested with
  | false =>
    simp only [process_images, Bool.false_eq_true, if_false, run_waifu2x, List.mem_map]
    rintro ⟨s, hs, rfl⟩
    exact runLoop_label_eq _ _ qs exec _ _ s hs
  | true =>
    cases hs : subdirs.isEmpty with
    | true =>
      simp only [process_images, hs, if_true, run_waifu2x, List.mem_map]
      rintro ⟨s, hs', rfl⟩
      exact runLoop_label_eq _ _ qs exec _ _ s hs'
    | false =>
      simp only [process_images, hs, Bool.false_eq_true, if_false, if_true]
      intro hp
      exact processChapters_label inputRoot outputRoot qs exec (sortDirs subdirs) _ p hp

end MangaUpscaler

namespace MangaUpscaler

/-- C1: for every batch, a non-zero exit, a timeout or a launch failure of
one ImageUnit does not change which ImageUnits are dispatched or in which
order (the dispatch projection of the trace is the same under any outcome
oracle), the progress counter still advances by exactly one per image, and
every failing unit's progress update carries a label distinct from the plain
image name. -/
theorem C1_partial_failure_policy (inputRoot outputRoot : String) (rootFiles : List String)
    (subdirs : List Dir) (nested : Bool) (qs : Option QualitySettings)
    (zip_output zip_nested : Bool) (exec exec' : String → ExecBehavior)
    (zipOk rmOk zipOk' rmOk' : String → Bool) :
    (((process_images inputRoot outputRoot rootFiles subdirs nested qs zip_output zip_nested
        exec zipOk rmOk).steps).map (fun p => (p.1, p.2.image)) =
      ((process_images inputRoot outputRoot rootFiles subdirs nested qs zip_output zip_nested
        exec' zipOk' rmOk').steps).map (fun p => (p.1, p.2.image))) ∧
    (((process_images inputRoot outputRoot rootFiles subdirs nested qs zip_output zip_nested
        exec zipOk rmOk).steps).map (fun p => p.2.counter) =
      List.range' 1 ((process_images inputRoot outputRoot rootFiles subdirs nested qs zip_output
        zip_nested exec zipOk rmOk).steps).length) ∧
    (∀ p ∈ (process_images inputRoot outputRoot rootFiles subdirs nested qs zip_output zip_nested
        exec zipOk rmOk).steps,
      p.2.outcome ≠ ProcOutcome.success → p.2.label ≠ p.2.image) := by
  refine ⟨?_, process_images_counter _ _ _ _ _ _ _ _ _ _ _, ?_⟩
  · rw [process_images_steps_proj, process_images_steps_proj]
  · intro p hp ho
    rw [process_images_label inputRoot outputRoot rootFiles subdirs nested qs zip_output
      zip_nested exec zipOk rmOk p hp]
    exact outcomeLabel_ne ho

/-- Witness for C1: in a one-image flat batch whose invocation exits 1, the
recorded update is labeled distinctly from the image name. -/
theorem C1_witness :
    (((none : Option String),
        (⟨"a.png", buildCmd ("in" ++ "/" ++ "a.png") ("out" ++ "/" ++ "a.png") none,
          ProcOutcome.toolFailure 1, "a.png" ++ " (failed)", 1, 1⟩ : ImageStep)) :
      Option String × ImageStep).2.label ≠
      (((none : Option String),
        (⟨"a.png", buildCmd ("in" ++ "/" ++ "a.png") ("out" ++ "/" ++ "a.png") none,
          ProcOutcome.toolFailure 1, "a.png" ++ " (failed)", 1, 1⟩ : ImageStep)) :
      Option String × ImageStep).2.image :=
  (C1_partial_failure_policy "in" "out" ["a.png"] [] false none false false
      (fun _ => ExecBehavior.exits 1) (fun _ => ExecBehavior.exits 1)
      (fun _ => true) (fun _ => true) (fun _ => true) (fun _ => true)).2.2
    _ (by decide) (by decide)

/-- Order on (chapter tag, image name) pairs: same chapter with image names
in order, or distinct chapters with chapter names in order. -/
def chapterImageLe (x y : Option String × String) : Prop :=
  (x.1 = y.1 ∧ strLe x.2 y.2) ∨ (x.1 ≠ y.1 ∧ strLe (x.1.getD "") (y.1.getD ""))

instance : DecidableRel chapterImageLe := fun x y => by
  unfold chapterImageLe
  infer_instance

/-- The order C6 claims for two consecutive dispatched steps. -/
def stepOrder (p q : Option String × ImageStep) : Prop :=
  chapterImageLe (p.1, p.2.image) (q.1, q.2.image)

instance : DecidableRel stepOrder := fun p q => by
  unfold stepOrder
  infer_instance

theorem pairwise_chapter_blocks :
    ∀ (l : List Dir), (l.map Dir.name).Nodup → List.Pairwise dirLe l →
      List.Pairwise chapterImageLe
        (l.flatMap (fun ch =>
          (sortStrings (globImages ch.files)).map (fun i => (some ch.name, i))))
  | [], _, _ => List.Pairwise.nil
  | ch :: rest, hnd, hsorted => by
    rw [List.flatMap_cons, List.pairwise_append]
    rw [List.map_cons, List.nodup_cons] at hnd
    rw [List.pairwise_cons] at hsorted
    refine ⟨?_, pairwise_chapter_blocks rest hnd.2 hsorted.2, ?_⟩
    · rw [List.pairwise_map]
      exact (sortStrings_sorted _).imp (fun h => Or.inl ⟨rfl, h⟩)
    · intro x hx y hy
      rw [List.mem_map] at hx
      rcases hx with ⟨i, hi, rfl⟩
      rw [List.mem_flatMap] at hy
      rcases hy with ⟨d, hd, hy⟩
      rw [List.mem_map] at hy
      rcases hy with ⟨j, hj, rfl⟩
      right
      constructor
      · intro hcontra
        rw [Option.some_inj] at hcontra
        exact hnd.1 (by rw [hcontra]; exact List.mem_map_of_mem Dir.name hd)
      · simpa using hsorted.1 d hd

theorem pairwise_dispatchPlan (rootFiles : List String) (subdirs : List Dir) (nested : Bool)
    (hnd : (subdirs.map Dir.name).Nodup) :
    List.Pairwise chapterImageLe (dispatchPlan rootFiles subdirs nested) := by
  have hflat : List.Pairwise chapterImageLe
      ((sortStrings (globImages rootFiles)).map (fun i => ((none : Option String), i))) := by
    rw [List.pairwise_map]
    exact (sortStrings_sorted _).imp (fun h => Or.inl ⟨rfl, h⟩)
  unfold dispatchPlan
  cases nested with
  | false => simpa using hflat
  | true =>
    cases hs : subdirs.isEmpty with
    | true => simpa [hs] using hflat
    | false =>
      simp only [hs, Bool.false_eq_true, if_false, if_true]
      refine pairwise_chapter_blocks (sortDirs subdirs) ?_ (sortDirs_sorted subdirs)
      exact ((sortDirs_perm subdirs).map Dir.name).nodup_iff.mpr hnd

/-- C6: processing order is fully deterministic: the dispatched steps are
pairwise ordered (images of one chapter in sorted-name order, chapters in
sorted-name order), and the progress counter advances strictly monotonically,
by one unit per image, in that same order. -/
theorem C6_deterministic_order (inputRoot outputRoot : String) (rootFiles : List String)
    (subdirs : List Dir) (nested : Bool) (qs : Option QualitySettings)
    (zip_output zip_nested : Bool) (exec : String → ExecBehavior)
    (zipOk rmOk : String → Bool) (hnd : (subdirs.map Dir.name).Nodup) :
    List.Pairwise stepOrder
      ((process_images inputRoot outputRoot rootFiles subdirs nested qs zip_output zip_nested
        exec zipOk rmOk).steps) ∧
    ((process_images inputRoot outputRoot rootFiles subdirs nested qs zip_output zip_nested
        exec zipOk rmOk).steps).map (fun p => p.2.counter) =
      List.range' 1 ((process_images inputRoot outputRoot rootFiles subdirs nested qs zip_output
        zip_nested exec zipOk rmOk).steps).length := by
  refine ⟨?_, process_images_counter _ _ _ _ _ _ _ _ _ _ _⟩
  have h := pairwise_dispatchPlan rootFiles subdirs nested hnd
  rw [← process_images_steps_proj inputRoot outputRoot rootFiles subdirs nested qs zip_output
    zip_nested exec zipOk rmOk] at h
  exact (@List.pairwise_map _ _ (fun p : Option String × ImageStep => (p.1, p.2.image))
    chapterImageLe _).mp h

/-- Witness for C6 at a two-chapter nested run given in unsorted order. -/
theorem C6_witness :
    List.Pairwise stepOrder
      ((process_images "in" "out" [] [⟨"ch2", ["b.png"]⟩, ⟨"ch1", ["a.png"]⟩] true none
        false false (fun _ => ExecBehavior.exits 0) (fun _ => true) (fun _ => true)).steps) ∧
    ((process_images "in" "out" [] [⟨"ch2", ["b.png"]⟩, ⟨"ch1", ["a.png"]⟩] true none
        false false (fun _ => ExecBehavior.exits 0) (fun _ => true) (fun _ => true)).steps).map
      (fun p => p.2.counter) =
      List.range' 1 ((process_images "in" "out" [] [⟨"ch2", ["b.png"]⟩, ⟨"ch1", ["a.png"]⟩] true
        none false false (fun _ => ExecBehavior.exits 0) (fun _ => true)
        (fun _ => true)).steps).length :=
  C6_deterministic_order "in" "out" [] [⟨"ch2", ["b.png"]⟩, ⟨"ch1", ["a.png"]⟩] true none
    false false (fun _ => ExecBehavior.exits 0) (fun _ => true) (fun _ => true) (by decide)

end MangaUpscaler

namespace MangaUpscaler

theorem length_filter_or_disjoint {α : Type} (p q r : α → Bool)
    (hr : ∀ a, r a = (p a || q a)) (h : ∀ a, p a = true → q a = false) :
    ∀ l : List α, (l.filter r).length = (l.filter p).length + (l.filter q).length
  | [] => rfl
  | a :: l => by
    have ih := length_filter_or_disjoint p q r hr h l
    cases hp : p a
    · cases hq : q a <;>
        simp [List.filter_cons, hr a, hp, hq, ih] <;> omega
    · have hq := h a hp
      simp [List.filter_cons, hr a, hp, hq, ih]
      omega

theorem matchesExt_excl {e₁ e₂ : String} (hlen : e₁.data.length ≤ e₂.data.length)
    (hns : e₁.data.isSuffixOf e₂.data = false) (n : String)
    (h : matchesExt e₁ n = true) : matchesExt e₂ n = false := by
  rw [matchesExt, List.isSuffixOf_iff_suffix] at h
  cases hq : matchesExt e₂ n
  · rfl
  · rw [matchesExt, List.isSuffixOf_iff_suffix] at hq
    have hsub := List.suffix_of_suffix_length_le h hq hlen
    rw [← List.isSuffixOf_iff_suffix] at hsub
    rw [hns] at hsub
    exact Bool.noConfusion hsub

theorem excl_png_jpg : ∀ n, matchesExt ".png" n = true → matchesExt ".jpg" n = false :=
  fun n => matchesExt_excl (by decide) (by decide) n

theorem excl_png_jpeg : ∀ n, matchesExt ".png" n = true → matchesExt ".jpeg" n = false :=
  fun n => matchesExt_excl (by decide) (by decide) n

theorem excl_png_webp : ∀ n, matchesExt ".png" n = true → matchesExt ".webp" n = false :=
  fun n => matchesExt_excl (by decide) (by decide) n

theorem excl_jpg_jpeg : ∀ n, matchesExt ".jpg" n = true → matchesExt ".jpeg" n = false :=
  fun n => matchesExt_excl (by decide) (by decide) n

theorem excl_jpg_webp : ∀ n, matchesExt ".jpg" n = true → matchesExt ".webp" n = false :=
  fun n => matchesExt_excl (by decide) (by decide) n

theorem excl_jpeg_webp : ∀ n, matchesExt ".jpeg" n = true → matchesExt ".webp" n = false :=
  fun n => matchesExt_excl (by decide) (by decide) n

theorem globImages_length (fs : List String) :
    (globImages fs).length = (fs.filter recognizedImage).length := by
  have hAB : ∀ n, (matchesExt ".png" n || matchesExt ".jpg" n) = true →
      (matchesExt ".jpeg" n || matchesExt ".webp" n) = false := by
    intro n hn
    rw [Bool.or_eq_true] at hn
    rcases hn with hn | hn
    · rw [excl_png_jpeg n hn, excl_png_webp n hn]
      rfl
    · rw [excl_jpg_jpeg n hn, excl_jpg_webp n hn]
      rfl
  have e1 := length_filter_or_disjoint (matchesExt ".png") (matchesExt ".jpg")
    (fun n => matchesExt ".png" n || matchesExt ".jpg" n) (fun a => rfl) excl_png_jpg fs
  have e2 := length_filter_or_disjoint (matchesExt ".jpeg") (matchesExt ".webp")
    (fun n => matchesExt ".jpeg" n || matchesExt ".webp" n) (fun a => rfl) excl_jpeg_webp fs
  have e3 := length_filter_or_disjoint (fun n => matchesExt ".png" n || matchesExt ".jpg" n)
    (fun n => matchesExt ".jpeg" n || matchesExt ".webp" n) recognizedImage
    (fun a => by simp [recognizedImage, Bool.or_assoc]) hAB fs
  simp only [globImages, List.length_append]
  omega

/-- C3: in a nested run over C ≥ 1 subdirectories, the progress total is
computed before processing starts, equals the summed count of recognized
images (extensions png/jpg/jpeg/webp) over all subdirectories, and every
progress update during processing, as well as the final tracker, still
carries that same total. -/
theorem C3_precomputed_total (inputRoot outputRoot : String) (rootFiles : List String)
    (subdirs : List Dir) (qs : Option QualitySettings) (zip_output zip_nested : Bool)
    (exec : String → ExecBehavior) (zipOk rmOk : String → Bool) (hne : subdirs ≠ []) :
    ((process_images inputRoot outputRoot rootFiles subdirs true qs zip_output zip_nested
        exec zipOk rmOk).totalPrecomputed =
      (subdirs.map (fun d => (d.files.filter recognizedImage).length)).sum) ∧
    (∀ p ∈ (process_images inputRoot outputRoot rootFiles subdirs true qs zip_output zip_nested
        exec zipOk rmOk).steps,
      p.2.total = (process_images inputRoot outputRoot rootFiles subdirs true qs zip_output
        zip_nested exec zipOk rmOk).totalPrecomputed) ∧
    ((process_images inputRoot outputRoot rootFiles subdirs true qs zip_output zip_nested
        exec zipOk rmOk).tracker.total_items =
      (process_images inputRoot outputRoot rootFiles subdirs true qs zip_output zip_nested
        exec zipOk rmOk).totalPrecomputed) := by
  have hs : subdirs.isEmpty = false := by
    cases subdirs with
    | nil => exact absurd rfl hne
    | cons d ds => rfl
  refine ⟨?_, ?_, ?_⟩
  · simp only [process_images, hs, Bool.false_eq_true, if_false, if_true]
    simp only [globImages_length]
  · intro p hp
    simp only [process_images, hs, Bool.false_eq_true, if_false, if_true] at hp ⊢
    exact processChapters_total _ _ qs exec _ _ p hp
  · simp only [process_images, hs, Bool.false_eq_true, if_false, if_true]
    rw [finish_fst_total, processChapters_fst]

/-- Witness for C3 at a two-chapter input (one chapter holding a recognized
and an unrecognized file, the other empty). -/
theorem C3_witness :
    ((process_images "in" "out" [] [⟨"ch1", ["a.png", "x.txt"]⟩, ⟨"ch2", []⟩] true none false
        false (fun _ => ExecBehavior.exits 0) (fun _ => true) (fun _ => true)).totalPrecomputed =
      (([⟨"ch1", ["a.png", "x.txt"]⟩, ⟨"ch2", []⟩] : List Dir).map
        (fun d => (d.files.filter recognizedImage).length)).sum) ∧
    (∀ p ∈ (process_images "in" "out" [] [⟨"ch1", ["a.png", "x.txt"]⟩, ⟨"ch2", []⟩] true none
        false false (fun _ => ExecBehavior.exits 0) (fun _ => true) (fun _ => true)).steps,
      p.2.total = (process_images "in" "out" [] [⟨"ch1", ["a.png", "x.txt"]⟩, ⟨"ch2", []⟩] true
        none false false (fun _ => ExecBehavior.exits 0) (fun _ => true)
        (fun _ => true)).totalPrecomputed) ∧
    ((process_images "in" "out" [] [⟨"ch1", ["a.png", "x.txt"]⟩, ⟨"ch2", []⟩] true none false
        false (fun _ => ExecBehavior.exits 0) (fun _ => true) (fun _ => true)).tracker.total_items =
      (process_images "in" "out" [] [⟨"ch1", ["a.png", "x.txt"]⟩, ⟨"ch2", []⟩] true none false
        false (fun _ => ExecBehavior.exits 0) (fun _ => true) (fun _ => true)).totalPrecomputed) :=
  C3_precomputed_total "in" "out" [] [⟨"ch1", ["a.png", "x.txt"]⟩, ⟨"ch2", []⟩] none false false
    (fun _ => ExecBehavior.exits 0) (fun _ => true) (fun _ => true) (by decide)

end MangaUpscaler

namespace MangaUpscaler

theorem disj_filters {p q : String → Bool} (h : ∀ n, p n = true → q n = false)
    (fs : List String) : (fs.filter p).Disjoint (fs.filter q) := by
  intro x hx hy
  rw [List.mem_filter] at hx hy
  have h' := h x hx.2
  rw [hy.2] at h'
  exact Bool.noConfusion h'

theorem globImages_nodup {fs : List String} (h : fs.Nodup) : (globImages fs).Nodup := by
  simp only [globImages, List.nodup_append, List.disjoint_append_left,
    List.disjoint_append_right]
  and_intros <;>
    first
      | exact List.Nodup.filter _ h
      | exact disj_filters excl_png_jpg fs
      | exact disj_filters excl_png_jpeg fs
      | exact disj_filters excl_png_webp fs
      | exact disj_filters excl_jpg_jpeg fs
      | exact disj_filters excl_jpg_webp fs
      | exact disj_filters excl_jpeg_webp fs

theorem sortStrings_nodup {l : List String} (h : l.Nodup) : (sortStrings l).Nodup :=
  ((sortStrings_perm l).nodup_iff).mpr h

theorem filter_pairs_single {f : String → ProcOutcome} :
    ∀ {l : List String} {bad : String}, l.Nodup → bad ∈ l →
      f bad ≠ ProcOutcome.success → (∀ x ∈ l, x ≠ bad → f x = ProcOutcome.success) →
      (l.map (fun i => (i, f i))).filter (fun p => !(p.2 == ProcOutcome.success)) =
        [(bad, f bad)]
  | [], bad, _, hmem, _, _ => absurd hmem (List.not_mem_nil bad)
  | a :: l, bad, hnd, hmem, hbad, hrest => by
    rw [List.nodup_cons] at hnd
    rw [List.map_cons, List.filter_cons]
    rcases List.mem_cons.mp hmem with rfl | hmem'
    · rw [if_pos (by simp [hbad])]
      have hnil : (l.map (fun i => (i, f i))).filter
          (fun p => !(p.2 == ProcOutcome.success)) = [] := by
        rw [List.filter_eq_nil_iff]
        intro p hp
        rw [List.mem_map] at hp
        rcases hp with ⟨x, hx, rfl⟩
        have hxs : f x = ProcOutcome.success :=
          hrest x (List.mem_cons_of_mem _ hx) (fun hxa => hnd.1 (hxa ▸ hx))
        simp [hxs]
      rw [hnil]
    · have hne2 : a ≠ bad := fun hab => hnd.1 (hab ▸ hmem')
      have hfa : f a = ProcOutcome.success := hrest a (List.mem_cons_self _ _) hne2
      rw [if_neg (by simp [hfa])]
      exact filter_pairs_single hnd.2 hmem' hbad
        (fun x hx hxb => hrest x (List.mem_cons_of_mem _ hx) hxb)

/-- C2: a completed flat run records one outcome per image; folding the
recorded outcomes per the spec's RunReport yields the image total, the
succeeded count, and the failures with reason tags.  In particular a run with
exactly one non-zero-exit image yields a report whose failed list is exactly
that image tagged ToolFailure with its exit code, with succeeded = total - 1. -/
theorem C2_run_report_single_failure (inputRoot outputRoot : String)
    (rootFiles : List String) (qs : Option QualitySettings) (zip_output : Bool)
    (exec : String → ExecBehavior) (zipOk rmOk : String → Bool) (bad : String) (c : Int)
    (hnd : rootFiles.Nodup) (hmem : bad ∈ globImages rootFiles)
    (hbad : exec (inputRoot ++ "/" ++ bad) = ExecBehavior.exits c) (hc : c ≠ 0)
    (hrest : ∀ img ∈ globImages rootFiles, img ≠ bad →
      exec (inputRoot ++ "/" ++ img) = ExecBehavior.exits 0) :
    specRunReport
      (((process_images inputRoot outputRoot rootFiles [] false qs zip_output false exec
          zipOk rmOk).steps).map (fun p => (p.2.image, p.2.outcome))) =
      ⟨(globImages rootFiles).length, (globImages rootFiles).length - 1,
        [(bad, ProcOutcome.toolFailure c)]⟩ := by
  have hsteps : ((process_images inputRoot outputRoot rootFiles [] false qs zip_output false
      exec zipOk rmOk).steps).map (fun p => (p.2.image, p.2.outcome)) =
      (sortStrings (globImages rootFiles)).map
        (fun i => (i, classify (exec (inputRoot ++ "/" ++ i)))) := by
    simp only [process_images, Bool.false_eq_true, if_false, run_waifu2x, List.map_map]
    exact runLoop_map_pair inputRoot outputRoot qs exec _ _
  rw [hsteps]
  have hnd' : (sortStrings (globImages rootFiles)).Nodup :=
    sortStrings_nodup (globImages_nodup hnd)
  have hmem' : bad ∈ sortStrings (globImages rootFiles) :=
    (sortStrings_perm _).mem_iff.mpr hmem
  have hbad' : classify (exec (inputRoot ++ "/" ++ bad)) = ProcOutcome.toolFailure c := by
    rw [hbad]
    simp [classify, hc]
  have hbadne : classify (exec (inputRoot ++ "/" ++ bad)) ≠ ProcOutcome.success := by
    rw [hbad']
    exact fun h => ProcOutcome.noConfusion h
  have hrest' : ∀ x ∈ sortStrings (globImages rootFiles), x ≠ bad →
      classify (exec (inputRoot ++ "/" ++ x)) = ProcOutcome.success := by
    intro x hx hxb
    rw [hrest x ((sortStrings_perm _).mem_iff.mp hx) hxb]
    simp [classify]
  have hfailed := filter_pairs_single hnd' hmem' hbadne hrest'
  have hcount := @List.length_eq_length_filter_add _
    ((sortStrings (globImages rootFiles)).map
      (fun i => (i, classify (exec (inputRoot ++ "/" ++ i)))))
    (fun p : String × ProcOutcome => p.2 == ProcOutcome.success)
  rw [hfailed] at hcount
  simp only [List.length_map, sortStrings_length, List.length_cons, List.length_nil] at hcount
  simp only [specRunReport, RunReport.mk.injEq]
  refine ⟨?_, ?_, ?_⟩
  · rw [List.length_map, sortStrings_length]
  · omega
  · rw [hfailed, hbad']

/-- Witness for C2: a two-image flat batch whose second-sorted image exits 1;
the folded report is ⟨2, 1, one ToolFailure entry⟩. -/
theorem C2_witness :
    specRunReport
      (((process_images "in" "out" ["b.png", "a.png"] [] false none false false
          (fun p => if p = "in" ++ "/" ++ "b.png" then ExecBehavior.exits 1
            else ExecBehavior.exits 0)
          (fun _ => true) (fun _ => true)).steps).map (fun p => (p.2.image, p.2.outcome))) =
      ⟨2, 1, [("b.png", ProcOutcome.toolFailure 1)]⟩ :=
  C2_run_report_single_failure "in" "out" ["b.png", "a.png"] none false
    (fun p => if p = "in" ++ "/" ++ "b.png" then ExecBehavior.exits 1 else ExecBehavior.exits 0)
    (fun _ => true) (fun _ => true) "b.png" 1 (by decide) (by decide) (by decide) (by decide)
    (by decide)

end MangaUpscaler

namespace MangaUpscaler

theorem zip_directory_returned_ne_nil {files : List String} {cleanup w r : Bool}
    (h : (zip_directory files cleanup w r).returned = true) : files ≠ [] := by
  intro hnil
  subst hnil
  simp [zip_directory] at h

theorem zip_directory_returned_true {files : List String} {r : Bool} (hne : files ≠ []) :
    (zip_directory files true true r).returned = true := by
  have hei : files.isEmpty = false := by
    cases files with
    | nil => exact absurd rfl hne
    | cons a l => rfl
  cases r <;> simp [zip_directory, hei]

theorem zipChapters_mem (ir : String) (exec : String → ExecBehavior)
    (zipOk rmOk : String → Bool) :
    ∀ (l : List Dir) (x : String), x ∈ zipChapters ir exec zipOk rmOk l →
      ∃ ch ∈ l, x = ch.name ++ ".zip" ∧
        chapterOutputFiles (ir ++ "/" ++ ch.name) ch.files exec ≠ []
  | [], x, hx => by simp [zipChapters] at hx
  | ch :: rest, x, hx => by
    simp only [zipChapters] at hx
    cases hret : (zip_directory (chapterOutputFiles (ir ++ "/" ++ ch.name) ch.files exec) true
        (zipOk ch.name) (rmOk ch.name)).returned with
    | false =>
      rw [hret] at hx
      simp only [Bool.false_eq_true, if_false] at hx
      rcases zipChapters_mem ir exec zipOk rmOk rest x hx with ⟨d, hd, hxd, hne⟩
      exact ⟨d, List.mem_cons_of_mem _ hd, hxd, hne⟩
    | true =>
      rw [hret] at hx
      simp only [if_true] at hx
      rcases List.mem_cons.mp hx with rfl | hx'
      · exact ⟨ch, List.mem_cons_self _ _, rfl, zip_directory_returned_ne_nil hret⟩
      · rcases zipChapters_mem ir exec zipOk rmOk rest x hx' with ⟨d, hd, hxd, hne⟩
        exact ⟨d, List.mem_cons_of_mem _ hd, hxd, hne⟩

theorem zipChapters_mem_of (ir : String) (exec : String → ExecBehavior)
    (zipOk rmOk : String → Bool) :
    ∀ (l : List Dir) (ch : Dir), ch ∈ l →
      chapterOutputFiles (ir ++ "/" ++ ch.name) ch.files exec ≠ [] →
      zipOk ch.name = true → (ch.name ++ ".zip") ∈ zipChapters ir exec zipOk rmOk l
  | [], ch, hch, _, _ => absurd hch (List.not_mem_nil ch)
  | d :: rest, ch, hch, hne, hzo => by
    simp only [zipChapters]
    rcases List.mem_cons.mp hch with rfl | hch'
    · rw [hzo, zip_directory_returned_true hne]
      simp only [if_true]
      exact List.mem_cons_self _ _
    · cases hret : (zip_directory (chapterOutputFiles (ir ++ "/" ++ d.name) d.files exec) true
          (zipOk d.name) (rmOk d.name)).returned
      · simp only [Bool.false_eq_true, if_false]
        exact zipChapters_mem_of ir exec zipOk rmOk rest ch hch' hne hzo
      · simp only [if_true]
        exact List.mem_cons_of_mem _ (zipChapters_mem_of ir exec zipOk rmOk rest ch hch' hne hzo)

theorem chapterOutputFiles_all_success {ir : String} {files : List String}
    {exec : String → ExecBehavior} (h : ∀ p, exec p = ExecBehavior.exits 0) :
    chapterOutputFiles ir files exec = sortStrings (globImages files) := by
  unfold chapterOutputFiles
  apply List.filter_eq_self.mpr
  intro a _
  rw [h]
  simp

theorem sortStrings_ne_nil {l : List String} (h : l ≠ []) : sortStrings l ≠ [] := by
  intro hcontra
  apply h
  have hlen := sortStrings_length l
  rw [hcontra] at hlen
  exact List.length_eq_zero.mp hlen.symm

theorem append_right_cancel_str {a b c : String} (h : a ++ c = b ++ c) : a = b := by
  have hd := congrArg String.data h
  rw [String.data_append, String.data_append] at hd
  have hcanc := List.append_cancel_right hd
  cases a
  cases b
  exact congrArg String.mk (by simpa using hcanc)

theorem sum_counts_filter_ne (l : List Dir) :
    ((l.filter (fun d => !(globImages d.files).isEmpty)).map
      (fun d => (globImages d.files).length)).sum =
    (l.map (fun d => (globImages d.files).length)).sum := by
  induction l with
  | nil => rfl
  | cons d rest ih =>
    rw [List.map_cons, List.sum_cons, List.filter_cons]
    cases he : (globImages d.files).isEmpty
    · simp only [Bool.not_false, if_true, List.map_cons, List.sum_cons, ih]
    · have hz : (globImages d.files).length = 0 := by
        rw [List.isEmpty_iff] at he
        rw [he]
        rfl
      simp only [Bool.not_true, Bool.false_eq_true, if_false, ih, hz, Nat.zero_add]

end MangaUpscaler

namespace MangaUpscaler

/-- C4 counterexample: a chapter with zero recognized images nevertheless
gets an output directory created under the output root, because
`output_path.mkdir(parents=True, exist_ok=True)` at line 424 runs before
image discovery.  This falsifies "a Chapter containing zero recognized images
produces no output directory under the output root". -/
theorem C4_counterexample :
    "ch2" ∈ (process_images "in" "out" [] [⟨"ch1", ["a.png"]⟩, ⟨"ch2", []⟩] true none false
      true (fun _ => ExecBehavior.exits 0) (fun _ => true) (fun _ => true)).createdDirs := by
  decide

/-- C4 amended: in a nested run every chapter, the empty ones included, gets
an output directory created; a chapter with zero recognized images is never
archived under zip-chapters; a chapter with images is archived when its
invocations succeed and its archive write succeeds; and the overall total
counts only the images of non-empty chapters. -/
theorem C4_empty_chapter_behavior (inputRoot outputRoot : String) (rootFiles : List String)
    (subdirs : List Dir) (qs : Option QualitySettings) (zip_output zip_nested : Bool)
    (exec : String → ExecBehavior) (zipOk rmOk : String → Bool)
    (hne : subdirs ≠ []) (hnd : (subdirs.map Dir.name).Nodup) :
    (∀ ch ∈ subdirs, ch.name ∈ (process_images inputRoot outputRoot rootFiles subdirs true qs
        zip_output zip_nested exec zipOk rmOk).createdDirs) ∧
    (∀ ch ∈ subdirs, globImages ch.files = [] →
      (ch.name ++ ".zip") ∉ (process_images inputRoot outputRoot rootFiles subdirs true qs
        zip_output zip_nested exec zipOk rmOk).chapterZips) ∧
    ((∀ p, exec p = ExecBehavior.exits 0) → (∀ n, zipOk n = true) → zip_nested = true →
      ∀ ch ∈ subdirs, globImages ch.files ≠ [] →
        (ch.name ++ ".zip") ∈ (process_images inputRoot outputRoot rootFiles subdirs true qs
          zip_output zip_nested exec zipOk rmOk).chapterZips) ∧
    ((process_images inputRoot outputRoot rootFiles subdirs true qs zip_output zip_nested
        exec zipOk rmOk).totalPrecomputed =
      ((subdirs.filter (fun d => !(globImages d.files).isEmpty)).map
        (fun d => (globImages d.files).length)).sum) := by
  have hs : subdirs.isEmpty = false := by
    cases subdirs with
    | nil => exact absurd rfl hne
    | cons d ds => rfl
  have hcreated : (process_images inputRoot outputRoot rootFiles subdirs true qs zip_output
      zip_nested exec zipOk rmOk).createdDirs = (sortDirs subdirs).map Dir.name := by
    simp only [process_images, hs, Bool.false_eq_true, if_false, if_true]
    exact processChapters_created _ _ qs exec _ _
  have hzips : (process_images inputRoot outputRoot rootFiles subdirs true qs zip_output
      zip_nested exec zipOk rmOk).chapterZips =
      (if zip_nested then zipChapters inputRoot exec zipOk rmOk (sortDirs subdirs) else []) := by
    simp only [process_images, hs, Bool.false_eq_true, if_false, if_true]
  refine ⟨?_, ?_, ?_, ?_⟩
  · intro ch hch
    rw [hcreated]
    exact List.mem_map_of_mem Dir.name ((sortDirs_perm subdirs).mem_iff.mpr hch)
  · intro ch hch hempty
    rw [hzips]
    cases zip_nested
    · simp
    · simp only [if_true]
      intro hmem
      rcases zipChapters_mem inputRoot exec zipOk rmOk (sortDirs subdirs) _ hmem with
        ⟨d, hd, hxd, hdne⟩
      have hname : ch.name = d.name := append_right_cancel_str hxd
      have hd' : d ∈ subdirs := (sortDirs_perm subdirs).mem_iff.mp hd
      have hdc : d = ch := List.inj_on_of_nodup_map hnd hd' hch hname.symm
      subst hdc
      apply hdne
      unfold chapterOutputFiles
      rw [hempty]
      rfl
  · intro hexec hzo hzn ch hch hne2
    rw [hzips, hzn]
    simp only [if_true]
    refine zipChapters_mem_of inputRoot exec zipOk rmOk (sortDirs subdirs) ch
      ((sortDirs_perm subdirs).mem_iff.mpr hch) ?_ (hzo ch.name)
    rw [chapterOutputFiles_all_success hexec]
    exact sortStrings_ne_nil hne2
  · simp only [process_images, hs, Bool.false_eq_true, if_false, if_true]
    rw [sum_counts_filter_ne]

/-- Witness for C4's amended claim at a two-chapter input, one chapter with
one image and one empty, with all invocations succeeding and archive writes
succeeding. -/
theorem C4_witness :
    (∀ ch ∈ ([⟨"ch1", ["a.png"]⟩, ⟨"ch2", []⟩] : List Dir),
      ch.name ∈ (process_images "in" "out" [] [⟨"ch1", ["a.png"]⟩, ⟨"ch2", []⟩] true none
        false true (fun _ => ExecBehavior.exits 0) (fun _ => true) (fun _ => true)).createdDirs) ∧
    (∀ ch ∈ ([⟨"ch1", ["a.png"]⟩, ⟨"ch2", []⟩] : List Dir), globImages ch.files = [] →
      (ch.name ++ ".zip") ∉ (process_images "in" "out" [] [⟨"ch1", ["a.png"]⟩, ⟨"ch2", []⟩]
        true none false true (fun _ => ExecBehavior.exits 0) (fun _ => true)
        (fun _ => true)).chapterZips) ∧
    ((∀ p, (fun _ => ExecBehavior.exits 0 : String → ExecBehavior) p = ExecBehavior.exits 0) →
      (∀ n, (fun _ => true : String → Bool) n = true) → true = true →
      ∀ ch ∈ ([⟨"ch1", ["a.png"]⟩, ⟨"ch2", []⟩] : List Dir), globImages ch.files ≠ [] →
        (ch.name ++ ".zip") ∈ (process_images "in" "out" [] [⟨"ch1", ["a.png"]⟩, ⟨"ch2", []⟩]
          true none false true (fun _ => ExecBehavior.exits 0) (fun _ => true)
          (fun _ => true)).chapterZips) ∧
    ((process_images "in" "out" [] [⟨"ch1", ["a.png"]⟩, ⟨"ch2", []⟩] true none false true
        (fun _ => ExecBehavior.exits 0) (fun _ => true) (fun _ => true)).totalPrecomputed =
      ((([⟨"ch1", ["a.png"]⟩, ⟨"ch2", []⟩] : List Dir).filter
        (fun d => !(globImages d.files).isEmpty)).map
          (fun d => (globImages d.files).length)).sum) :=
  C4_empty_chapter_behavior "in" "out" [] [⟨"ch1", ["a.png"]⟩, ⟨"ch2", []⟩] none false true
    (fun _ => ExecBehavior.exits 0) (fun _ => true) (fun _ => true) (by decide) (by decide)

end MangaUpscaler
